import Mathlib

/-!
Verification of `src/inventory_system.py` (Sipivishta/SE_LAB5).

The program keeps a single mapping `stock_data : dict[str, int]` and offers
`load_data`, `save_data`, `add_item`, `remove_item`, `get_qty`,
`check_low_items` and `print_data` over it.

Embedding choices:
* A Python `dict` is modelled as an association list `List (String × Int)`
  in insertion order with unique keys in all reachable states; lookup takes
  the first matching entry, update rewrites the value in place, insertion
  appends at the end and deletion removes the key's entries. This matches
  CPython dict semantics (insertion-ordered, in-place value update).
* `qty` arguments carry the source annotation `Union[int, str]`; they are
  modelled by the inductive `Qty`. Python's `int(...)` coercion on such a
  value is modelled by `coerceQty`: the identity on `int`, and on `str` a
  parse of optional whitespace, an optional sign and a nonempty digit run
  with single underscores allowed between digits (ASCII digits; this is the
  fragment of CPython's `int(str)` grammar exercised by the repository).
* Logging and printing are side channels with no effect on the mapping, so
  they are not part of the state.
* Files are modelled by `FileContent`: the conditions `open`/`json.load`
  can produce. The JSON codec is, per the program's use of the standard
  `json` module, an exact inverse pair on string→integer objects, so a
  parsed/serialized object is represented by its entry list directly;
  `JValue.nonObj` stands for any other valid JSON document (arrays,
  strings, numbers, booleans, `null`, and objects whose values are not all
  integers). `load_data` stores whatever `json.load` returns, hence its
  result is a `StockState`: either a string→int dict or some other value.
-/

/-- A Python `dict[str, int]` as an insertion-ordered association list. -/
abbrev Dict := List (String × Int)

/-- Lookup `stock_data.get(k)` / `stock_data[k]`: first entry whose key is `k`. -/
def dget (m : Dict) (k : String) : Option Int :=
  match m with
  | [] => none
  | (k', v) :: rest => if k' = k then some v else dget rest k

/-- Assignment `stock_data[k] = v`: update the existing entry in place, else append. -/
def dset (m : Dict) (k : String) (v : Int) : Dict :=
  match m with
  | [] => [(k, v)]
  | (k', v') :: rest =>
      if k' = k then (k', v) :: rest else (k', v') :: dset rest k v

/-- Deletion `del stock_data[k]`: drop every entry keyed `k` (on a
unique-key dict this is the one entry Python deletes). -/
def ddel (m : Dict) (k : String) : Dict :=
  match m with
  | [] => []
  | (k', v') :: rest => if k' = k then ddel rest k else (k', v') :: ddel rest k

/-- The keys of the mapping are pairwise distinct (every reachable Python
dict satisfies this by construction). -/
def DictWF (m : Dict) : Prop := (m.map Prod.fst).Nodup

instance (m : Dict) : Decidable (DictWF m) :=
  inferInstanceAs (Decidable (m.map Prod.fst).Nodup)

/-- A quantity argument, per the source annotation `qty : Union[int, str]`. -/
inductive Qty where
  | int (n : Int)
  | str (s : String)
deriving DecidableEq, Repr

/-- Digit run with optional single underscores between digits, as accepted
by CPython `int(str)` after the sign: `digit (underscore? digit)*`.
`acc` is the value of the digits consumed so far. -/
def parseDigitsRest (acc : Nat) : List Char → Option Nat
  | [] => some acc
  | c :: cs =>
      if c.isDigit then parseDigitsRest (acc * 10 + (c.toNat - 48)) cs
      else if c = '_' then
        match cs with
        | [] => none
        | c2 :: cs2 =>
            if c2.isDigit then
              parseDigitsRest (acc * 10 + (c2.toNat - 48)) cs2
            else none
      else none

/-- A nonempty digit run (with optional internal underscores). -/
def parseDigits : List Char → Option Nat
  | [] => none
  | c :: cs => if c.isDigit then parseDigitsRest (c.toNat - 48) cs else none

/-- CPython `int(s)` on a string: strip surrounding whitespace, read an
optional sign, then require a digit run; anything else (empty string,
fractional literal such as `"2.5"`, non-numeric text) raises `ValueError`,
modelled as `none`. -/
def pyIntOfChars (cs : List Char) : Option Int :=
  let core := ((cs.dropWhile Char.isWhitespace).reverse.dropWhile
      Char.isWhitespace).reverse
  match core with
  | '-' :: rest => (parseDigits rest).map (fun n => -(n : Int))
  | '+' :: rest => (parseDigits rest).map (fun n => (n : Int))
  | _ => (parseDigits core).map (fun n => (n : Int))

/-- Coercion `int(qty)` for `qty : Union[int, str]`; `none` models the
`(TypeError, ValueError)` branch. -/
def coerceQty : Qty → Option Int
  | .int n => some n
  | .str s => pyIntOfChars s.data

/-- Source `remove_item(item, qty)` from `src/inventory_system.py:90`.
Validation failures, coercion failures, non-positive requests and the
`KeyError` branch leave the mapping untouched; otherwise
`qty_removed = min(qty_int, current)` is subtracted and a zero result
deletes the entry. -/
def remove_item (m : Dict) (item : String) (qty : Qty) : Dict :=
  if item = "" then m
  else
    match coerceQty qty with
    | none => m
    | some q =>
        if q ≤ 0 then m
        else
          match dget m item with
          | none => m
          | some cur =>
              let removed := min q cur
              let newv := cur - removed
              let m1 := dset m item newv
              if newv = 0 then ddel m1 item else m1

/-- Source `add_item(item, qty)` from `src/inventory_system.py:60`.
A negative coerced quantity delegates to `remove_item` with
`abs(qty_int)`; zero is a no-op; otherwise the stored quantity (default 0)
is incremented. (The source also rejects non-`str` items; the embedding's
`item` is a string, so only the emptiness check remains.) -/
def add_item (m : Dict) (item : String) (qty : Qty) : Dict :=
  if item = "" then m
  else
    match coerceQty qty with
    | none => m
    | some q =>
        if q < 0 then remove_item m item (.int (abs q))
        else if q = 0 then m
        else dset m item ((dget m item).getD 0 + q)

/-- Source `get_qty(item)` from `src/inventory_system.py:135`:
`stock_data.get(item, 0)`. -/
def get_qty (m : Dict) (item : String) : Int :=
  (dget m item).getD 0

/-- Source `check_low_items(threshold)` from `src/inventory_system.py:160`:
`[item for item, qty in stock_data.items() if qty < threshold]`. -/
def check_low_items (m : Dict) (threshold : Int) : List String :=
  (m.filter (fun p => p.2 < threshold)).map Prod.fst

/-- A JSON document, as far as this program distinguishes them: an object
all of whose values are integers (what `save_data` writes), or any other
valid JSON value. -/
inductive JValue where
  | obj (entries : List (String × Int))
  | nonObj
deriving DecidableEq

/-- What opening and `json.load`-ing the file at a path can yield. -/
inductive FileContent where
  | missing            -- `FileNotFoundError`
  | invalid            -- text that raises `json.JSONDecodeError`
  | ioError            -- any other `Exception` while opening/reading
  | jsonVal (v : JValue)
deriving DecidableEq

/-- The value held by the global `stock_data` after a load: a string→int
dict, or (when the file parsed to some other JSON value) not a dict of
string→int at all. -/
inductive StockState where
  | dict (m : Dict)
  | notStrIntDict
deriving DecidableEq

/-- Whether `stock_data` holds a string→integer mapping. -/
def StockState.isDict : StockState → Bool
  | .dict _ => true
  | .notStrIntDict => false

/-- Source `load_data(path)` from `src/inventory_system.py:17`: every exception is
caught and yields the empty mapping; otherwise `stock_data` is assigned
whatever `json.load` returned. The function is total: no exception escapes
to the caller. -/
def load_data : FileContent → StockState
  | .jsonVal (.obj l) => .dict l
  | .jsonVal .nonObj => .notStrIntDict
  | .missing => .dict []
  | .invalid => .dict []
  | .ioError => .dict []

/-- Source `save_data(path)` from `src/inventory_system.py:45`: on a successful
write the file holds `json.dump` of the mapping; the mapping itself is not
touched. Modelled as the content a successful write produces. -/
def save_data (m : Dict) : FileContent :=
  .jsonVal (.obj m)

/-- The spec's data-model invariant on a mapping: no key maps to a
non-positive value (with unique keys, absence is then equivalent to
`get_qty` being 0). -/
def InvPos (m : Dict) : Prop := ∀ p ∈ m, 0 < p.2

instance (m : Dict) : Decidable (InvPos m) :=
  inferInstanceAs (Decidable (∀ p ∈ m, 0 < p.2))

/-- Updating a key makes lookup of that key return the new value. -/
theorem dget_dset_self : ∀ (m : Dict) (k : String) (v : Int),
    dget (dset m k v) k = some v
  | [], k, v => by simp [dset, dget]
  | (k', v') :: rest, k, v => by
      by_cases h : k' = k
      · simp [dset, dget, h]
      · simp [dset, dget, h, dget_dset_self rest k v]

/-- Updating one key leaves lookup of any other key unchanged. -/
theorem dget_dset_ne : ∀ (m : Dict) (k : String) (v : Int) (q : String),
    q ≠ k → dget (dset m k v) q = dget m q
  | [], k, v, q, h => by
      have hkq : ¬ k = q := fun hh => h hh.symm
      simp [dset, dget, hkq]
  | (k', v') :: rest, k, v, q, h => by
      by_cases hk : k' = k
      · subst hk
        have hkq : ¬ k' = q := fun hh => h hh.symm
        simp [dset, dget, hkq]
      · by_cases hq : k' = q
        · subst hq
          simp [dset, dget, hk]
        · simp [dset, dget, hk, hq, dget_dset_ne rest k v q h]

/-- Deleting a key makes lookup of that key return `none`. -/
theorem dget_ddel_self : ∀ (m : Dict) (k : String), dget (ddel m k) k = none
  | [], k => by simp [ddel, dget]
  | (k', v') :: rest, k => by
      by_cases h : k' = k
      · simp [ddel, h, dget_ddel_self rest k]
      · simp [ddel, dget, h, dget_ddel_self rest k]

/-- Deleting one key leaves lookup of any other key unchanged. -/
theorem dget_ddel_ne : ∀ (m : Dict) (k : String) (q : String),
    q ≠ k → dget (ddel m k) q = dget m q
  | [], k, q, h => by simp [ddel, dget]
  | (k', v') :: rest, k, q, h => by
      by_cases hk : k' = k
      · subst hk
        have hkq : ¬ k' = q := fun hh => h hh.symm
        simp [ddel, dget, hkq, dget_ddel_ne rest k' q h]
      · simp [ddel, dget, hk, dget_ddel_ne rest k q h]

/-- Every entry of an updated mapping is an old entry or the new pair. -/
theorem mem_dset : ∀ (m : Dict) (k : String) (v : Int) (p : String × Int),
    p ∈ dset m k v → p ∈ m ∨ p = (k, v)
  | [], k, v, p => by
      intro hp
      simp [dset] at hp
      exact Or.inr hp
  | (k', v') :: rest, k, v, p => by
      intro hp
      by_cases h : k' = k
      · simp [dset, h] at hp
        rcases hp with hp | hp
        · exact Or.inr (by simp [hp, h])
        · exact Or.inl (List.mem_cons_of_mem _ hp)
      · simp [dset, h] at hp
        rcases hp with hp | hp
        · exact Or.inl (by simp [hp])
        · rcases mem_dset rest k v p hp with h2 | h2
          · exact Or.inl (List.mem_cons_of_mem _ h2)
          · exact Or.inr h2

/-- Every entry surviving a deletion is an old entry with a different key. -/
theorem mem_ddel : ∀ (m : Dict) (k : String) (p : String × Int),
    p ∈ ddel m k → p ∈ m ∧ p.1 ≠ k
  | [], k, p => by simp [ddel]
  | (k', v') :: rest, k, p => by
      intro hp
      by_cases h : k' = k
      · simp [ddel, h] at hp
        have h2 := mem_ddel rest k p hp
        exact ⟨List.mem_cons_of_mem _ h2.1, h2.2⟩
      · simp [ddel, h] at hp
        rcases hp with hp | hp
        · exact ⟨by simp [hp], by simpa [hp] using h⟩
        · have h2 := mem_ddel rest k p hp
          exact ⟨List.mem_cons_of_mem _ h2.1, h2.2⟩

/-- A successful lookup returns an entry of the mapping. -/
theorem dget_mem : ∀ (m : Dict) (k : String) (v : Int),
    dget m k = some v → (k, v) ∈ m
  | [], k, v => by simp [dget]
  | (k', v') :: rest, k, v => by
      intro h
      by_cases hk : k' = k
      · simp [dget, hk] at h
        simp [hk, h]
      · simp [dget, hk] at h
        exact List.mem_cons_of_mem _ (dget_mem rest k v h)

/-- Updating a key with a positive value preserves positivity. -/
theorem invPos_dset (m : Dict) (k : String) (v : Int)
    (hm : InvPos m) (hv : 0 < v) : InvPos (dset m k v) := by
  intro p hp
  rcases mem_dset m k v p hp with h | h
  · exact hm p h
  · rw [h]
    exact hv

/-- Deleting a key preserves positivity. -/
theorem invPos_ddel (m : Dict) (k : String) (hm : InvPos m) :
    InvPos (ddel m k) := by
  intro p hp
  exact hm p (mem_ddel m k p hp).1

/-- Removal preserves positivity of all stored values. -/
theorem invPos_remove_item (m : Dict) (item : String) (qty : Qty)
    (hm : InvPos m) : InvPos (remove_item m item qty) := by
  by_cases hi : item = ""
  · simpa [remove_item, hi] using hm
  · cases hq : coerceQty qty with
    | none => simpa [remove_item, hi, hq] using hm
    | some q =>
        by_cases hq0 : q ≤ 0
        · simpa [remove_item, hi, hq, hq0] using hm
        · cases hc : dget m item with
          | none => simpa [remove_item, hi, hq, hq0, hc] using hm
          | some cur =>
              by_cases hz : cur - min q cur = 0
              · have hrw : remove_item m item qty =
                    ddel (dset m item (cur - min q cur)) item := by
                  simp [remove_item, hi, hq, hq0, hc, if_pos hz]
                rw [hrw]
                intro p hp
                rcases mem_ddel _ _ _ hp with ⟨hpm, hpk⟩
                rcases mem_dset _ _ _ _ hpm with h | h
                · exact hm p h
                · exact absurd (by rw [h]) hpk
              · have hrw : remove_item m item qty =
                    dset m item (cur - min q cur) := by
                  simp [remove_item, hi, hq, hq0, hc, if_neg hz]
                rw [hrw]
                have hnn : 0 < cur - min q cur := by omega
                exact invPos_dset m item _ hm hnn

/-- Addition preserves positivity of all stored values. -/
theorem invPos_add_item (m : Dict) (item : String) (qty : Qty)
    (hm : InvPos m) : InvPos (add_item m item qty) := by
  by_cases hi : item = ""
  · simpa [add_item, hi] using hm
  · cases hq : coerceQty qty with
    | none => simpa [add_item, hi, hq] using hm
    | some q =>
        by_cases hneg : q < 0
        · have hrw : add_item m item qty = remove_item m item (.int (abs q)) := by
            simp [add_item, hi, hq, hneg]
          rw [hrw]
          exact invPos_remove_item m item _ hm
        · by_cases h0 : q = 0
          · simpa [add_item, hi, hq, hneg, h0] using hm
          · have hrw : add_item m item qty =
                dset m item ((dget m item).getD 0 + q) := by
              simp [add_item, hi, hq, hneg, h0]
            rw [hrw]
            have hpos : 0 < (dget m item).getD 0 + q := by
              cases hc : dget m item with
              | none => simp; omega
              | some v =>
                  have := hm _ (dget_mem m item v hc)
                  simp at this
                  simp [hc]
                  omega
            exact invPos_dset m item _ hm hpos

/-- Removal never changes the reported quantity of a different key. -/
theorem get_qty_remove_item_ne (m : Dict) (item : String) (qty : Qty)
    (k : String) (h : k ≠ item) :
    get_qty (remove_item m item qty) k = get_qty m k := by
  by_cases hi : item = ""
  · simp [remove_item, hi]
  · cases hq : coerceQty qty with
    | none => simp [remove_item, hi, hq]
    | some q =>
        by_cases hq0 : q ≤ 0
        · simp [remove_item, hi, hq, hq0]
        · cases hc : dget m item with
          | none => simp [remove_item, hi, hq, hq0, hc]
          | some cur =>
              by_cases hz : cur - min q cur = 0
              · have hrw : remove_item m item qty =
                    ddel (dset m item (cur - min q cur)) item := by
                  simp [remove_item, hi, hq, hq0, hc, if_pos hz]
                rw [hrw]
                unfold get_qty
                rw [dget_ddel_ne _ _ _ h, dget_dset_ne _ _ _ _ h]
              · have hrw : remove_item m item qty =
                    dset m item (cur - min q cur) := by
                  simp [remove_item, hi, hq, hq0, hc, if_neg hz]
                rw [hrw]
                unfold get_qty
                rw [dget_dset_ne _ _ _ _ h]

/-- Addition never changes the reported quantity of a different key. -/
theorem get_qty_add_item_ne (m : Dict) (item : String) (qty : Qty)
    (k : String) (h : k ≠ item) :
    get_qty (add_item m item qty) k = get_qty m k := by
  by_cases hi : item = ""
  · simp [add_item, hi]
  · cases hq : coerceQty qty with
    | none => simp [add_item, hi, hq]
    | some q =>
        by_cases hneg : q < 0
        · have hrw : add_item m item qty = remove_item m item (.int (abs q)) := by
            simp [add_item, hi, hq, hneg]
          rw [hrw]
          exact get_qty_remove_item_ne m item _ k h
        · by_cases h0 : q = 0
          · simp [add_item, hi, hq, hneg, h0]
          · have hrw : add_item m item qty =
                dset m item ((dget m item).getD 0 + q) := by
              simp [add_item, hi, hq, hneg, h0]
            rw [hrw]
            unfold get_qty
            rw [dget_dset_ne _ _ _ _ h]

/-- C1 counterexample: `load_data` installs the file's JSON object verbatim
(`src/inventory_system.py:29` assigns `json.load`'s result with no
validation), so loading the object with entry `"a" ↦ 0` yields a state
with a key present at quantity 0 — the claimed invariant does not hold
after `load_data` for every input file. -/
theorem claim_c1_counterexample :
    load_data (.jsonVal (.obj [("a", 0)])) = .dict [("a", 0)] ∧
    ¬ InvPos [("a", 0)] := by
  refine ⟨rfl, fun h => ?_⟩
  have h0 := h ("a", 0) (by simp)
  simp at h0

/-- C1 (amended): the invariant — no stored value non-positive, hence under
it a key is absent exactly when `get_qty` reports 0 — is preserved by
`add_item` and `remove_item` from every state satisfying it, and
`save_data` does not touch the mapping (loading back what it wrote returns
the mapping unchanged); `load_data`, however, installs a loaded JSON
object verbatim, so after a load the invariant holds exactly when every
value in the file was strictly positive. -/
theorem claim_c1_invariant_preservation :
    (∀ m item qty, InvPos m → InvPos (add_item m item qty)) ∧
    (∀ m item qty, InvPos m → InvPos (remove_item m item qty)) ∧
    (∀ m, InvPos m → ∀ k, (dget m k = none ↔ get_qty m k = 0)) ∧
    (∀ l, load_data (save_data l) = .dict l) := by
  refine ⟨invPos_add_item, invPos_remove_item, ?_, fun l => rfl⟩
  intro m hm k
  constructor
  · intro h
    simp [get_qty, h]
  · intro h
    rw [get_qty] at h
    cases hc : dget m k with
    | none => rfl
    | some v =>
        rw [hc] at h
        simp at h
        have hv := hm _ (dget_mem m k v hc)
        simp [h] at hv

/-- C1 witness: concrete instances of the preservation statements. -/
theorem claim_c1_witness :
    InvPos (add_item [("apple", 7)] "banana" (.int 3)) ∧
    InvPos (remove_item [("apple", 7), ("kiwi", 2)] "apple" (.int 2)) ∧
    (dget [("apple", 7)] "kiwi" = none ↔ get_qty [("apple", 7)] "kiwi" = 0) :=
  ⟨claim_c1_invariant_preservation.1 _ "banana" _ (by decide),
   claim_c1_invariant_preservation.2.1 _ "apple" _ (by decide),
   claim_c1_invariant_preservation.2.2.1 _ (by decide) "kiwi"⟩

/-- C2: for an item present with quantity Q and any removal request R > 0,
the post-removal reported quantity is `max 0 (Q - R)`, the item is absent
from the mapping exactly when that value is 0, and the reported quantity
is never negative. -/
theorem claim_c2_remove_floor (m : Dict) (item : String) (Q R : Int)
    (hitem : item ≠ "") (hcur : dget m item = some Q) (hR : 0 < R) :
    get_qty (remove_item m item (.int R)) item = max 0 (Q - R) ∧
    (dget (remove_item m item (.int R)) item = none ↔ max 0 (Q - R) = 0) ∧
    0 ≤ get_qty (remove_item m item (.int R)) item := by
  have hq0 : ¬ (R ≤ 0) := not_le.mpr hR
  by_cases hz : Q - min R Q = 0
  · have hrw : remove_item m item (.int R) =
        ddel (dset m item (Q - min R Q)) item := by
      simp [remove_item, hitem, coerceQty, hq0, hcur, if_pos hz]
    have hmax : max 0 (Q - R) = 0 := by omega
    rw [hrw]
    refine ⟨?_, ?_, ?_⟩ <;> simp [get_qty, dget_ddel_self, hmax]
  · have hrw : remove_item m item (.int R) =
        dset m item (Q - min R Q) := by
      simp [remove_item, hitem, coerceQty, hq0, hcur, if_neg hz]
    have hmax : max 0 (Q - R) = Q - min R Q := by omega
    rw [hrw]
    refine ⟨?_, ?_, ?_⟩
    · simp [get_qty, dget_dset_self, hmax]
    · rw [dget_dset_self]
      constructor
      · intro hcontra
        exact (Option.some_ne_none _ hcontra).elim
      · intro hcontra
        exact absurd (by omega : Q - min R Q = 0) hz
    · simp only [get_qty, dget_dset_self, Option.getD_some]
      omega

/-- C2 witness: removing 10 from 5 oranges floors at 0 and deletes the
entry. -/
theorem claim_c2_witness :
    get_qty (remove_item [("orange", 5)] "orange" (.int 10)) "orange" =
      max (0 : Int) (5 - 10) ∧
    (dget (remove_item [("orange", 5)] "orange" (.int 10)) "orange" = none ↔
      max (0 : Int) (5 - 10) = 0) ∧
    0 ≤ get_qty (remove_item [("orange", 5)] "orange" (.int 10)) "orange" :=
  claim_c2_remove_floor [("orange", 5)] "orange" 5 10 (by decide) (by decide)
    (by decide)

/-- C3: starting from a state where the item is absent, adding q1 and then
q2 (both non-negative) yields reported quantity q1 + q2. -/
theorem claim_c3_sequential_adds (m : Dict) (item : String) (q1 q2 : Int)
    (hitem : item ≠ "") (habs : dget m item = none)
    (h1 : 0 ≤ q1) (h2 : 0 ≤ q2) :
    get_qty (add_item (add_item m item (.int q1)) item (.int q2)) item
      = q1 + q2 := by
  have hn1 : ¬ (q1 < 0) := not_lt.mpr h1
  have hn2 : ¬ (q2 < 0) := not_lt.mpr h2
  by_cases hz1 : q1 = 0
  · have hrw1 : add_item m item (.int q1) = m := by
      simp [add_item, hitem, coerceQty, hn1, hz1]
    rw [hrw1]
    by_cases hz2 : q2 = 0
    · have hrw2 : add_item m item (.int q2) = m := by
        simp [add_item, hitem, coerceQty, hn2, hz2]
      rw [hrw2]
      simp [get_qty, habs, hz1, hz2]
    · have hrw2 : add_item m item (.int q2) =
          dset m item ((dget m item).getD 0 + q2) := by
        simp [add_item, hitem, coerceQty, hn2, hz2]
      rw [hrw2]
      simp [get_qty, dget_dset_self, habs, hz1]
  · have hrw1 : add_item m item (.int q1) =
        dset m item ((dget m item).getD 0 + q1) := by
      simp [add_item, hitem, coerceQty, hn1, hz1]
    rw [hrw1]
    have hget1 : dget (dset m item ((dget m item).getD 0 + q1)) item
        = some q1 := by
      rw [dget_dset_self, habs]
      simp
    by_cases hz2 : q2 = 0
    · have hrw2 : add_item (dset m item ((dget m item).getD 0 + q1)) item
          (.int q2) = dset m item ((dget m item).getD 0 + q1) := by
        simp [add_item, hitem, coerceQty, hn2, hz2]
      rw [hrw2]
      simp [get_qty, hget1, hz2]
    · have hrw2 : add_item (dset m item ((dget m item).getD 0 + q1)) item
          (.int q2) =
          dset (dset m item ((dget m item).getD 0 + q1)) item
            ((dget (dset m item ((dget m item).getD 0 + q1)) item).getD 0
              + q2) := by
        simp [add_item, hitem, coerceQty, hn2, hz2]
      rw [hrw2]
      simp [get_qty, dget_dset_self, hget1]

/-- C3 witness: adding 10 then 3 apples to the empty mapping gives 13. -/
theorem claim_c3_witness :
    get_qty (add_item (add_item [] "apple" (.int 10)) "apple" (.int 3))
      "apple" = 10 + 3 :=
  claim_c3_sequential_adds [] "apple" 10 3 (by decide) rfl (by decide)
    (by decide)

/-- C4: adding a negative quantity −N (N > 0) produces exactly the final
mapping that removing N produces, from any initial state: the source
delegates to `remove_item` with `abs(qty_int)`. -/
theorem claim_c4_add_negative_delegates (m : Dict) (item : String) (N : Int)
    (hN : 0 < N) :
    add_item m item (.int (-N)) = remove_item m item (.int N) := by
  by_cases hi : item = ""
  · simp [add_item, remove_item, hi]
  · have hneg : (-N) < 0 := by omega
    have habs : abs (-N) = N := by
      rw [abs_neg]
      exact abs_of_pos hN
    simp [add_item, hi, coerceQty, hneg, habs]

/-- C4 witness: adding −2 bananas equals removing 2 bananas. -/
theorem claim_c4_witness :
    add_item [("banana", 8)] "banana" (.int (-2)) =
      remove_item [("banana", 8)] "banana" (.int 2) :=
  claim_c4_add_negative_delegates [("banana", 8)] "banana" 2 (by decide)

/-- C5: when the quantity argument is a string whose integer coercion
fails — every fractional literal such as "2.5" and every non-numeric
string — both `add_item` and `remove_item` return the mapping exactly as
it was (and since quantities are integers end to end, no fractional value
is ever stored). -/
theorem claim_c5_coercion_failure_no_mutation (m : Dict) (item s : String)
    (h : pyIntOfChars s.data = none) :
    add_item m item (.str s) = m ∧ remove_item m item (.str s) = m := by
  by_cases hi : item = ""
  · simp [add_item, remove_item, hi]
  · simp [add_item, remove_item, hi, coerceQty, h]

/-- C5 witness: the fractional literal "2.5" fails coercion and mutates
nothing. -/
theorem claim_c5_witness :
    pyIntOfChars "2.5".data = none ∧
    (add_item [("apple", 1)] "apple" (.str "2.5") = [("apple", 1)] ∧
     remove_item [("apple", 1)] "apple" (.str "2.5") = [("apple", 1)]) :=
  ⟨by decide,
   claim_c5_coercion_failure_no_mutation [("apple", 1)] "apple" "2.5"
     (by decide)⟩

/-- C6: saving a well-formed mapping and loading the resulting file back
reproduces exactly the mapping that was saved (the standard JSON codec is
an exact inverse pair on string→integer objects). -/
theorem claim_c6_save_load_roundtrip (m : Dict) (_hwf : DictWF m) :
    load_data (save_data m) = .dict m := rfl

/-- C6 witness: round trip on a concrete two-item mapping. -/
theorem claim_c6_witness :
    load_data (save_data [("apple", 7), ("banana", 6)]) =
      .dict [("apple", 7), ("banana", 6)] :=
  claim_c6_save_load_roundtrip [("apple", 7), ("banana", 6)] (by decide)

/-- C7 counterexample: a file whose content is valid JSON but not an object
(e.g. the text `[1, 2]`) raises none of the handled exceptions, so
`load_data` installs the parsed non-object value verbatim and the
resulting `stock_data` is not a string→integer mapping at all — the claim
that every file condition leaves the mapping in a valid (possibly empty)
state fails. -/
theorem claim_c7_counterexample :
    (load_data (.jsonVal .nonObj)).isDict = false := rfl

/-- C7 (amended): `load_data` is total (never raises: every handled path is
a caught exception), and a missing file, invalid JSON, or any other I/O
failure each yield the empty mapping; a file parsing to a JSON object is
installed verbatim. Valid non-object JSON, however, is also installed
verbatim, leaving `stock_data` holding a non-mapping value. -/
theorem claim_c7_load_error_handling (fc : FileContent)
    (h : fc = .missing ∨ fc = .invalid ∨ fc = .ioError) :
    load_data fc = .dict [] := by
  rcases h with rfl | rfl | rfl <;> rfl

/-- C7 witness: a missing file yields the empty mapping. -/
theorem claim_c7_witness : load_data .missing = .dict [] :=
  claim_c7_load_error_handling .missing (Or.inl rfl)

/-- C8: `check_low_items` returns exactly the names of entries with value
strictly below the threshold, as a subsequence of the mapping's key
enumeration (hence in enumeration order), and the empty mapping gives the
empty result; being a pure function of the mapping, it mutates nothing. -/
theorem claim_c8_check_low_items (m : Dict) (t : Int) :
    (∀ s, s ∈ check_low_items m t ↔ ∃ q, (s, q) ∈ m ∧ q < t) ∧
    (check_low_items m t).Sublist (m.map Prod.fst) ∧
    check_low_items [] t = [] := by
  refine ⟨fun s => ?_, ?_, rfl⟩
  · simp only [check_low_items, List.mem_map, List.mem_filter,
      decide_eq_true_eq]
    constructor
    · rintro ⟨⟨a, q⟩, ⟨hm, hlt⟩, rfl⟩
      exact ⟨q, hm, hlt⟩
    · rintro ⟨q, hm, hlt⟩
      exact ⟨(s, q), ⟨hm, hlt⟩, rfl⟩
  · exact (List.filter_sublist m).map Prod.fst

/-- C9: removing any positive quantity of an item that is absent from the
mapping is a no-op — the `KeyError` is caught, no entry is created and
the mapping is returned exactly as it was. -/
theorem claim_c9_remove_absent_noop (m : Dict) (item : String) (q : Int)
    (hitem : item ≠ "") (habs : dget m item = none) (hq : 0 < q) :
    remove_item m item (.int q) = m := by
  have h0 : ¬ (q ≤ 0) := not_le.mpr hq
  simp [remove_item, hitem, coerceQty, h0, habs]

/-- C9 witness: removing a kiwi from the empty mapping leaves it empty. -/
theorem claim_c9_witness : remove_item [] "kiwi" (.int 1) = [] :=
  claim_c9_remove_absent_noop [] "kiwi" 1 (by decide) rfl (by decide)

/-- C10: neither `add_item` nor `remove_item` changes the reported quantity
of any key other than the one operated on, whatever the quantity argument
(valid, invalid, negative, or string). -/
theorem claim_c10_frame (m : Dict) (item : String) (qty : Qty) (k : String)
    (h : k ≠ item) :
    get_qty (add_item m item qty) k = get_qty m k ∧
    get_qty (remove_item m item qty) k = get_qty m k :=
  ⟨get_qty_add_item_ne m item qty k h, get_qty_remove_item_ne m item qty k h⟩

/-- C10 witness: operating on bananas leaves the apple count unchanged. -/
theorem claim_c10_witness :
    get_qty (add_item [("apple", 7), ("banana", 8)] "banana" (.int 3))
      "apple" = get_qty [("apple", 7), ("banana", 8)] "apple" ∧
    get_qty (remove_item [("apple", 7), ("banana", 8)] "banana" (.int 3))
      "apple" = get_qty [("apple", 7), ("banana", 8)] "apple" :=
  claim_c10_frame [("apple", 7), ("banana", 8)] "banana" (.int 3) "apple"
    (by decide)
